import Mathlib

/-!
Verification of the multi-axis stepper coordination code of the ENME441
repository (stepper motors sharing one shift-register output word).

The Python sources are shallowly embedded:
* angles are exact rationals (`ℚ`); Python's float `%` on a positive
  modulus is `qmod x m = x - m * ⌊x / m⌋`;
* `math.remainder(x, 360)` is `x - 360 * rne (x / 360)` where `rne`
  rounds to the nearest integer with ties to even;
* Python's `int(...)` truncation toward zero is `pyInt`;
* machine words are `ℕ`; Python's `w & ~mask` on non-negative ints is
  `Nat.ldiff w mask`;
* the GPIO bit-banging of `shifter.py` is an event trace (`SEvent`);
* the interleaving of two axes' step routines is a small-step relation
  over micro-operations (`MOp`, `Config`).
-/

/-- Python's float `%` with a positive modulus: `x - m * ⌊x / m⌋`. -/
def qmod (x m : ℚ) : ℚ := x - m * ⌊x / m⌋

/-- Round to nearest integer, ties to even (the rounding used by
`math.remainder`). -/
def rne (x : ℚ) : ℤ :=
  if x - ⌊x⌋ < 1/2 then ⌊x⌋
  else if 1/2 < x - ⌊x⌋ then ⌊x⌋ + 1
  else if ⌊x⌋ % 2 = 0 then ⌊x⌋ else ⌊x⌋ + 1

/-- Python's `int(...)` on a float: truncation toward zero. -/
def pyInt (q : ℚ) : ℤ := if 0 ≤ q then ⌊q⌋ else ⌈q⌉

/-- `_shortest_delta` from `src/lab8_stepper_multiprocessing.py`:
`math.remainder(target_deg - current_deg, 360.0)`. -/
def shortest_delta (current_deg target_deg : ℚ) : ℚ :=
  (target_deg - current_deg) - 360 * rne ((target_deg - current_deg) / 360)

/-- The spec's shortest-path formula, written from the spec's words:
`((targetDegrees - currentAngle + 540) mod 360) - 180`. -/
def shortestDeltaSpec (current target : ℚ) : ℚ :=
  qmod (target - current + 540) 360 - 180

/-- `goAngle`'s delta computation in
`src/stepper_class_shiftregister_multiprocessing.py`:
`(target - angle + 180) % 360 - 180`. -/
def goAngle_delta_v2 (current target : ℚ) : ℚ :=
  qmod (target - current + 180) 360 - 180

/-- One observable wire event of the bit-banged serial bus. -/
inductive SEvent : Type where
  | setData (v : Bool)
  | pulseClock
  | pulseLatch
  deriving DecidableEq, Repr

namespace Shifter

/-- `Shifter.shiftByte` from `src/shifter.py`: for `i in range(8)` drive the
data line to `b & (1 << i)` (high iff non-zero), pulse the clock, then pulse
the latch once. -/
def shiftByte (b : ℕ) : List SEvent :=
  ((List.range 8).flatMap fun i =>
    [SEvent.setData (b &&& (1 <<< i) != 0), SEvent.pulseClock])
  ++ [SEvent.pulseLatch]

/-- Modelled from the spec: `shiftWord` is called by
`src/stepper_class_shiftregister_multiprocessing2.py` but its implementation
is missing from the repository snapshot; spec §4.1 says
`transmit(word, bitWidth)` serializes `bitWidth` bits of `word` onto the
data line (LSB-first, matching `shiftByte`), pulsing the clock once per bit,
then pulses the latch once. -/
def shiftWord (w bits : ℕ) : List SEvent :=
  ((List.range bits).flatMap fun i =>
    [SEvent.setData (w.testBit i), SEvent.pulseClock])
  ++ [SEvent.pulseLatch]

end Shifter

/-- The sequence of data-line levels sampled at the clock pulses of a
trace: one entry per `setData` event. -/
def dataBits (tr : List SEvent) : List Bool :=
  tr.filterMap fun e =>
    match e with
    | SEvent.setData v => some v
    | _ => none

namespace Stepper

/-- The 8-entry half-step commutation table `Stepper.seq`. -/
def seq : List ℕ := [0b0001, 0b0011, 0b0010, 0b0110, 0b0100, 0b1100, 0b1000, 0b1001]

/-- `Stepper.steps_per_degree = 4096/360`. -/
def steps_per_degree : ℚ := 4096 / 360

/-- Python list indexing `Stepper.seq[step_state]` for a `step_state`
already reduced into `[0, 8)`. -/
def seqAt (i : ℤ) : ℕ := seq.getD i.toNat 0

/-- Per-axis state of `src/lab8_stepper_multiprocessing.py` together with
the shared output word (`Stepper.shifter_outputs`). -/
structure State where
  shifter_outputs : ℕ
  step_state : ℤ
  angle : ℚ
  shifter_bit_start : ℕ
  deriving DecidableEq, Repr

/-- Freshly constructed axis: word clear, `step_state = 0`, `angle = 0`. -/
def init (bit_start : ℕ) : State :=
  { shifter_outputs := 0, step_state := 0, angle := 0,
    shifter_bit_start := bit_start }

/-- `Stepper.__sgn`: `0` if `x == 0`, else `int(abs(x)/x)`. -/
def sgn (x : ℚ) : ℤ := if x = 0 then 0 else pyInt (|x| / x)

/-- `Stepper.__step` from `src/lab8_stepper_multiprocessing.py`: advance
`step_state` by `dir` mod 8, clear this axis's 4-bit mask in the shared
word, OR in the new nibble, transmit the word (returned as the second
component), then update `angle` by `dir / steps_per_degree` mod 360. -/
def step (dir : ℤ) (s : State) : State × ℕ :=
  let step_state := (s.step_state + dir) % 8
  let mask : ℕ := 0b1111 <<< s.shifter_bit_start
  let current_output := s.shifter_outputs
  let new_output :=
    Nat.ldiff current_output mask ||| (seqAt step_state <<< s.shifter_bit_start)
  ({ s with
      step_state := step_state
      shifter_outputs := new_output
      angle := qmod (s.angle + (dir : ℚ) / steps_per_degree) 360 },
   new_output)

/-- `numSteps = int(Stepper.steps_per_degree * abs(delta))` — note the
truncation `int(...)`, not `round(...)`. -/
def numSteps (delta : ℚ) : ℕ := (pyInt (steps_per_degree * |delta|)).toNat

/-- `Stepper.__rotate`: take `numSteps` steps of direction `sgn delta`. -/
def rotate (delta : ℚ) (s : State) : State :=
  (List.range (numSteps delta)).foldl (fun st _ => (step (sgn delta) st).1) s

/-- The worker's handling of an `("abs", target)` command: snapshot the
angle, compute `_shortest_delta`, then `__rotate`. -/
def goAngle (target : ℚ) (s : State) : State :=
  rotate (shortest_delta s.angle target) s

/-- `Stepper.zero` from `src/lab8_stepper_multiprocessing.py`: reset the
shared angle and the sequence position. -/
def zero (s : State) : State := { s with angle := 0, step_state := 0 }

/-- A public command against one axis. -/
inductive Op : Type where
  | step (dir : ℤ)
  | rotate (delta : ℚ)
  | goAngle (target : ℚ)
  | zero

/-- Execute one command on the axis state. -/
def applyOp (s : State) : Op → State
  | Op.step d => (step d s).1
  | Op.rotate d => rotate d s
  | Op.goAngle t => goAngle t s
  | Op.zero => zero s

/-- Execute a FIFO command sequence. -/
def run (ops : List Op) (s : State) : State := ops.foldl applyOp s

/-- Iterate bare steps (used for the frame property over step sequences). -/
def runSteps (dirs : List ℤ) (s : State) : State :=
  dirs.foldl (fun st d => (step d st).1) s

end Stepper

namespace StepperV2

/-- `Stepper.zero` from `src/stepper_class_shiftregister_multiprocessing.py`:
sets only `angle = 0.0`; `step_state` is left untouched. -/
def zero (s : Stepper.State) : Stepper.State := { s with angle := 0 }

end StepperV2

/-- `total_bits = max(8, Stepper.num_steppers * 4)` from
`src/stepper_class_shiftregister_multiprocessing2.py`. -/
def total_bits (num_steppers : ℕ) : ℕ := max 8 (num_steppers * 4)

namespace StepperW

/-- `Stepper.__step` from `src/stepper_class_shiftregister_multiprocessing2.py`:
same word update as the other variants, then `shiftWord(shifter_outputs,
total_bits)` with `total_bits = max(8, num_steppers * 4)`; the emitted wire
trace is returned alongside the state. -/
def step (num_steppers : ℕ) (dir : ℤ) (s : Stepper.State) :
    Stepper.State × List SEvent :=
  let step_state := (s.step_state + dir) % (Stepper.seq.length : ℤ)
  let mask : ℕ := 0b1111 <<< s.shifter_bit_start
  let new_output :=
    Nat.ldiff s.shifter_outputs mask |||
      (Stepper.seqAt step_state <<< s.shifter_bit_start)
  ({ s with
      step_state := step_state
      shifter_outputs := new_output
      angle := qmod (s.angle + (dir : ℚ) / Stepper.steps_per_degree) 360 },
   Shifter.shiftWord new_output (total_bits num_steppers))

end StepperW

/-- A Python float as seen by `float(...)`: finite, NaN, or an infinity. -/
inductive PyFloat : Type where
  | finite (q : ℚ)
  | nan
  | inf
  | ninf
  deriving DecidableEq, Repr

/-- Tag of a queued command: `"rel"` or `"abs"`. -/
inductive CmdKind : Type where
  | rel
  | abs
  deriving DecidableEq, Repr

namespace StepperQueue

/-- Public `Stepper.rotate` from `src/lab8_stepper_multiprocessing.py`:
`self.queue.put(("rel", float(delta)))` — unconditional enqueue, no
validation of the argument. -/
def rotate (delta : PyFloat) (queue : List (CmdKind × PyFloat)) :
    List (CmdKind × PyFloat) :=
  queue ++ [(CmdKind.rel, delta)]

/-- Public `Stepper.goAngle` from `src/lab8_stepper_multiprocessing.py`:
`self.queue.put(("abs", float(target_angle)))` — unconditional enqueue, no
validation of the argument. -/
def goAngle (target : PyFloat) (queue : List (CmdKind × PyFloat)) :
    List (CmdKind × PyFloat) :=
  queue ++ [(CmdKind.abs, target)]

end StepperQueue

/-- One atomic micro-operation on the shared output word: acquire/release
the bus lock, read the shared word into the axis's local register, write a
function of the local register back to the shared word, or transmit
(`shiftByte`) the current shared word. -/
inductive MOp : Type where
  | acq
  | rel
  | read
  | write (f : ℕ → ℕ)
  | emit

/-- An interleaving configuration of two axes `A` (`false`) and `B`
(`true`): shared word, lock owner, per-axis local register and remaining
program, and the list of words transmitted so far. -/
structure Config where
  word : ℕ
  owner : Option Bool
  regA : ℕ
  regB : ℕ
  progA : List MOp
  progB : List MOp
  out : List ℕ

def getProg (i : Bool) (c : Config) : List MOp := if i then c.progB else c.progA

def setProg (i : Bool) (p : List MOp) (c : Config) : Config :=
  if i then { c with progB := p } else { c with progA := p }

def getReg (i : Bool) (c : Config) : ℕ := if i then c.regB else c.regA

def setReg (i : Bool) (r : ℕ) (c : Config) : Config :=
  if i then { c with regB := r } else { c with regA := r }

/-- Execute one micro-operation of axis `i` (a no-op when the program is
finished or the lock is held by the other axis). -/
def stepAxis (i : Bool) (c : Config) : Config :=
  match getProg i c with
  | [] => c
  | op :: rest =>
    match op with
    | MOp.acq =>
        if c.owner = none then setProg i rest { c with owner := some i } else c
    | MOp.rel => setProg i rest { c with owner := none }
    | MOp.read => setProg i rest (setReg i c.word c)
    | MOp.write f => setProg i rest { c with word := f (getReg i c) }
    | MOp.emit => setProg i rest { c with out := c.out ++ [c.word] }

/-- Run a schedule (a list of axis choices) from a configuration. -/
def runSched (sched : List Bool) (c : Config) : Config :=
  sched.foldl (fun c' i => stepAxis i c') c

/-- The shared-word micro-operations of `Stepper.__step` in `src/lab8.py`:
`shifter_outputs &= ~mask` and `shifter_outputs |= nibble << start` are
each a read followed by a write, executed OUTSIDE the lock; only
`shiftByte` is guarded by `with self.lock`. -/
def lab8StepProg (mask nibble_shifted : ℕ) : List MOp :=
  [MOp.read, MOp.write (fun r => Nat.ldiff r mask),
   MOp.read, MOp.write (fun r => r ||| nibble_shifted),
   MOp.acq, MOp.emit, MOp.rel]

/-- The shared-word micro-operations of `Stepper.__step` in
`src/lab8_stepper_multiprocessing.py`: the whole read-modify-write-transmit
cycle runs inside `with Stepper.shifter_outputs.get_lock()`. -/
def mpStepProg (mask nibble_shifted : ℕ) : List MOp :=
  [MOp.acq, MOp.read,
   MOp.write (fun r => Nat.ldiff r mask ||| nibble_shifted),
   MOp.emit, MOp.rel]

/-- Two axes at bit offsets 0 and 4, each about to run one step routine
writing its (already shifted) nibble, starting from a clear word. -/
def twoAxisInit (prog : ℕ → ℕ → List MOp) (nibA nibB : ℕ) : Config :=
  { word := 0, owner := none, regA := 0, regB := 0,
    progA := prog 0b1111 nibA,
    progB := prog (0b1111 <<< 4) (nibB <<< 4),
    out := [] }

/-- Axis A's locked step program: offset 0, sample nibble 3. -/
def mpProgA : List MOp := mpStepProg 0b1111 3

/-- Axis B's locked step program: offset 4, sample nibble 9. -/
def mpProgB : List MOp := mpStepProg (0b1111 <<< 4) (9 <<< 4)

/-- Axis A is inside its critical section (`acq` consumed, `rel` not yet). -/
def inCSA (c : Config) : Prop :=
  c.progA = mpProgA.drop 1 ∨ c.progA = mpProgA.drop 2 ∨
  c.progA = mpProgA.drop 3 ∨ c.progA = mpProgA.drop 4

/-- Axis B is inside its critical section. -/
def inCSB (c : Config) : Prop :=
  c.progB = mpProgB.drop 1 ∨ c.progB = mpProgB.drop 2 ∨
  c.progB = mpProgB.drop 3 ∨ c.progB = mpProgB.drop 4

/-- Axis A has committed its write to the shared word. -/
def doneWriteA (c : Config) : Prop :=
  c.progA = mpProgA.drop 3 ∨ c.progA = mpProgA.drop 4 ∨ c.progA = []

/-- Axis B has committed its write to the shared word. -/
def doneWriteB (c : Config) : Prop :=
  c.progB = mpProgB.drop 3 ∨ c.progB = mpProgB.drop 4 ∨ c.progB = []

/-- Lock-discipline invariant for two axes running the locked step of
`src/lab8_stepper_multiprocessing.py`: each program counter is a genuine
suffix, the lock owner is exactly the axis inside its critical section, the
shared word is determined by which axes have committed, and a register
snapshot taken inside the critical section still equals the shared word. -/
def MpInv (c : Config) : Prop :=
  (c.progA = mpProgA ∨ inCSA c ∨ c.progA = []) ∧
  (c.progB = mpProgB ∨ inCSB c ∨ c.progB = []) ∧
  (c.owner = some false ↔ inCSA c) ∧
  (c.owner = some true ↔ inCSB c) ∧
  (c.progA = mpProgA.drop 2 → c.regA = c.word) ∧
  (c.progB = mpProgB.drop 2 → c.regB = c.word) ∧
  (¬ doneWriteA c → ¬ doneWriteB c → c.word = 0) ∧
  (doneWriteA c → ¬ doneWriteB c → c.word = 3) ∧
  (¬ doneWriteA c → doneWriteB c → c.word = 144) ∧
  (doneWriteA c → doneWriteB c → c.word = 147)

section QmodLemmas

lemma qmod_eq_fract (x m : ℚ) (hm : m ≠ 0) :
    qmod x m = m * Int.fract (x / m) := by
  unfold qmod Int.fract
  rw [mul_sub, mul_div_cancel₀ _ hm]

lemma qmod_nonneg (x m : ℚ) (hm : 0 < m) : 0 ≤ qmod x m := by
  rw [qmod_eq_fract x m (ne_of_gt hm)]
  exact mul_nonneg (le_of_lt hm) (Int.fract_nonneg _)

lemma qmod_lt (x m : ℚ) (hm : 0 < m) : qmod x m < m := by
  rw [qmod_eq_fract x m (ne_of_gt hm)]
  calc m * Int.fract (x / m) < m * 1 :=
        (mul_lt_mul_left hm).mpr (Int.fract_lt_one _)
    _ = m := mul_one m

lemma qmod_add_int_mul (x : ℚ) (k : ℤ) :
    qmod (x + 360 * k) 360 = qmod x 360 := by
  have h360 : (360 : ℚ) ≠ 0 := by norm_num
  rw [qmod_eq_fract _ _ h360, qmod_eq_fract _ _ h360]
  have : (x + 360 * k) / 360 = x / 360 + k := by
    field_simp
    ring
  rw [this, Int.fract_add_int]

/-- Evaluate `qmod x 360` when `x` is pinned between two consecutive
multiples of 360. -/
lemma qmod_of_bounds (x : ℚ) (k : ℤ) (h1 : 360 * k ≤ x)
    (h2 : x < 360 * (k + 1)) : qmod x 360 = x - 360 * k := by
  have h360 : (0 : ℚ) < 360 := by norm_num
  have hf : ⌊x / 360⌋ = k := by
    rw [Int.floor_eq_iff]
    constructor
    · rw [le_div_iff₀ h360]
      linarith
    · rw [div_lt_iff₀ h360]
      linarith
  unfold qmod
  rw [hf]

lemma and_one_shl_bne_zero (b i : ℕ) : (b &&& (1 <<< i) != 0) = b.testBit i := by
  rw [Nat.shiftLeft_eq, one_mul, Nat.and_two_pow]
  cases h : b.testBit i <;> simp [h]

end QmodLemmas

section RneLemmas

lemma rne_of_abs_lt_half (x : ℚ) (h1 : -(1/2) < x) (h2 : x < 1/2) :
    rne x = 0 := by
  rcases le_or_lt 0 x with h0 | h0
  · have hf : ⌊x⌋ = 0 := by
      rw [Int.floor_eq_iff]
      constructor <;> push_cast <;> linarith
    unfold rne
    rw [hf]
    split_ifs with hA hB hC
    · rfl
    · push_cast at hA hB
      linarith
    · rfl
    · simp at hC
  · have hf : ⌊x⌋ = -1 := by
      rw [Int.floor_eq_iff]
      constructor <;> push_cast <;> linarith
    unfold rne
    rw [hf]
    split_ifs with hA hB hC
    · push_cast at hA
      linarith
    · norm_num
    · simp at hC
    · norm_num

lemma rne_half : rne (1/2) = 0 := by
  unfold rne
  norm_num

lemma rne_neg_half : rne (-(1/2)) = 0 := by
  have hf : ⌊-(1/2 : ℚ)⌋ = -1 := by
    rw [Int.floor_eq_iff]
    constructor <;> norm_num
  unfold rne
  rw [hf]
  norm_num

lemma rne_of_half_lt (x : ℚ) (h1 : 1/2 < x) (h2 : x < 1) : rne x = 1 := by
  have hf : ⌊x⌋ = 0 := by
    rw [Int.floor_eq_iff]
    constructor <;> push_cast <;> linarith
  unfold rne
  rw [hf]
  split_ifs with hA hB hC
  · push_cast at hA
    linarith
  · rfl
  · push_cast at hA hB
    linarith
  · push_cast at hA hB
    linarith

lemma rne_of_lt_neg_half (x : ℚ) (h1 : -1 < x) (h2 : x < -(1/2)) :
    rne x = -1 := by
  have hf : ⌊x⌋ = -1 := by
    rw [Int.floor_eq_iff]
    constructor <;> push_cast <;> linarith
  unfold rne
  rw [hf]
  split_ifs with hA hB hC
  · rfl
  · push_cast at hA
    linarith
  · rfl
  · push_cast at hA
    linarith

end RneLemmas

/-- Characterization of `shortest_delta` on the spec's domain: bounded by
180 in absolute value, lands on the target modulo 360, and agrees with the
spec's 540-window formula except exactly at a half-turn difference. -/
theorem shortest_delta_spec (current target : ℚ) (h1 : 0 ≤ current)
    (h2 : current < 360) (h3 : 0 ≤ target) (h4 : target < 360) :
    |shortest_delta current target| ≤ 180 ∧
    qmod (current + shortest_delta current target) 360 = qmod target 360 ∧
    (target - current ≠ 180 →
      shortest_delta current target = shortestDeltaSpec current target) := by
  have h360 : (0 : ℚ) < 360 := by norm_num
  rcases lt_trichotomy (target - current) (-180) with hx | hx | hx
  · -- target - current ∈ (-360, -180)
    have hr : rne ((target - current) / 360) = -1 := by
      apply rne_of_lt_neg_half
      · rw [lt_div_iff₀ h360]
        linarith
      · rw [div_lt_iff₀ h360]
        linarith
    have hδ : shortest_delta current target = target - current + 360 := by
      rw [shortest_delta, hr]
      push_cast
      ring
    refine ⟨?_, ?_, fun _ => ?_⟩
    · rw [hδ, abs_le]
      constructor <;> linarith
    · rw [hδ]
      have hc : current + (target - current + 360) =
          target + 360 * ((1 : ℤ) : ℚ) := by
        push_cast
        ring
      rw [hc, qmod_add_int_mul]
    · rw [hδ, shortestDeltaSpec,
        qmod_of_bounds _ 0 (by push_cast; linarith) (by push_cast; linarith)]
      push_cast
      ring
  · -- target - current = -180
    have hr : rne ((target - current) / 360) = 0 := by
      rw [hx]
      have he : (-180 : ℚ) / 360 = -(1/2) := by norm_num
      rw [he]
      exact rne_neg_half
    have hδ : shortest_delta current target = -180 := by
      rw [shortest_delta, hr, hx]
      push_cast
      ring
    refine ⟨?_, ?_, fun _ => ?_⟩
    · rw [hδ]
      norm_num
    · rw [hδ]
      have hc : current + (-180 : ℚ) = target := by linarith
      rw [hc]
    · rw [hδ, shortestDeltaSpec, hx]
      have hq : qmod ((-180 : ℚ) + 540) 360 = 0 := by
        rw [qmod_of_bounds _ 1 (by push_cast; linarith) (by push_cast; linarith)]
        push_cast
        ring
      rw [hq]
      norm_num
  · rcases lt_trichotomy (target - current) 180 with hx2 | hx2 | hx2
    · -- target - current ∈ (-180, 180)
      have hr : rne ((target - current) / 360) = 0 := by
        apply rne_of_abs_lt_half
        · rw [lt_div_iff₀ h360]
          linarith
        · rw [div_lt_iff₀ h360]
          linarith
      have hδ : shortest_delta current target = target - current := by
        rw [shortest_delta, hr]
        push_cast
        ring
      refine ⟨?_, ?_, fun _ => ?_⟩
      · rw [hδ, abs_le]
        constructor <;> linarith
      · rw [hδ]
        have hc : current + (target - current) = target := by ring
        rw [hc]
      · rw [hδ, shortestDeltaSpec,
          qmod_of_bounds _ 1 (by push_cast; linarith) (by push_cast; linarith)]
        push_cast
        ring
    · -- target - current = 180: the tie; remainder picks +180
      have hr : rne ((target - current) / 360) = 0 := by
        rw [hx2]
        have he : (180 : ℚ) / 360 = 1/2 := by norm_num
        rw [he]
        exact rne_half
      have hδ : shortest_delta current target = 180 := by
        rw [shortest_delta, hr, hx2]
        push_cast
        ring
      refine ⟨?_, ?_, fun hne => absurd hx2 hne⟩
      · rw [hδ]
        norm_num
      · rw [hδ]
        have hc : current + (180 : ℚ) = target := by linarith
        rw [hc]
    · -- target - current ∈ (180, 360)
      have hr : rne ((target - current) / 360) = 1 := by
        apply rne_of_half_lt
        · rw [lt_div_iff₀ h360]
          linarith
        · rw [div_lt_iff₀ h360]
          linarith
      have hδ : shortest_delta current target = target - current - 360 := by
        rw [shortest_delta, hr]
        push_cast
        ring
      refine ⟨?_, ?_, fun _ => ?_⟩
      · rw [hδ, abs_le]
        constructor <;> linarith
      · rw [hδ]
        have hc : current + (target - current - 360) =
            target + 360 * ((-1 : ℤ) : ℚ) := by
          push_cast
          ring
        rw [hc, qmod_add_int_mul]
      · rw [hδ, shortestDeltaSpec,
          qmod_of_bounds _ 2 (by push_cast; linarith) (by push_cast; linarith)]
        push_cast
        ring

/-- Claim C2 as frozen is refuted at `current = 0, target = 180`: the code's
`_shortest_delta` (IEEE remainder) returns `+180` there while the spec's
formula `((target - current + 540) mod 360) - 180` returns `-180`, so the
two disagree and the formula's value does not lie in `(-180, 180]`. -/
theorem claim_C2_counterexample :
    shortest_delta 0 180 = 180 ∧ shortestDeltaSpec 0 180 = -180 ∧
    shortest_delta 0 180 ≠ shortestDeltaSpec 0 180 ∧
    ¬ (-180 < shortestDeltaSpec 0 180) := by
  have h1 : shortest_delta 0 180 = 180 := by
    have he : (180 - 0 : ℚ) / 360 = 1/2 := by norm_num
    rw [shortest_delta, he, rne_half]
    norm_num
  have h2 : shortestDeltaSpec 0 180 = -180 := by
    rw [shortestDeltaSpec,
      qmod_of_bounds _ 2 (by push_cast; norm_num) (by push_cast; norm_num)]
    push_cast
    norm_num
  refine ⟨h1, h2, ?_, ?_⟩
  · rw [h1, h2]
    norm_num
  · rw [h2]
    norm_num

/-- Claim C2, amended: for `current, target` in `[0, 360)` the code's
shortest-path delta `_shortest_delta` satisfies `|delta| ≤ 180` (the
interval is the closed `[-180, 180]`, not `(-180, 180]`) and
`(current + delta) mod 360 = target mod 360`; it equals the spec formula
`((target - current + 540) mod 360) - 180` except when
`target - current = 180`, where the code returns `+180` and the formula
`-180`.  The `goAngle` variant's `(target - current + 180) mod 360 - 180`
equals the spec formula everywhere. -/
theorem claim_C2_amended (current target : ℚ) (h1 : 0 ≤ current)
    (h2 : current < 360) (h3 : 0 ≤ target) (h4 : target < 360) :
    |shortest_delta current target| ≤ 180 ∧
    qmod (current + shortest_delta current target) 360 = qmod target 360 ∧
    (target - current ≠ 180 →
      shortest_delta current target = shortestDeltaSpec current target) ∧
    goAngle_delta_v2 current target = shortestDeltaSpec current target := by
  obtain ⟨ha, hb, hc⟩ := shortest_delta_spec current target h1 h2 h3 h4
  refine ⟨ha, hb, hc, ?_⟩
  rw [goAngle_delta_v2, shortestDeltaSpec]
  have hq : target - current + 540 = (target - current + 180) + 360 * ((1 : ℤ) : ℚ) := by
    push_cast
    ring
  rw [hq, qmod_add_int_mul]

/-- Witness for `claim_C2_amended` at `current = 0`, `target = 90`. -/
theorem claim_C2_witness :
    |shortest_delta 0 90| ≤ 180 ∧
    qmod (0 + shortest_delta 0 90) 360 = qmod 90 360 ∧
    ((90 : ℚ) - 0 ≠ 180 →
      shortest_delta 0 90 = shortestDeltaSpec 0 90) ∧
    goAngle_delta_v2 0 90 = shortestDeltaSpec 0 90 :=
  claim_C2_amended 0 90 (by norm_num) (by norm_num) (by norm_num) (by norm_num)

/-- Claim C10: `Shifter.shiftByte b` serializes exactly the low 8 bits of
`b`, LSB-first — the trace is data-bit `i` then a clock pulse, for
`i = 0..7`, followed by exactly one latch pulse — and the trace depends only
on `b mod 256`, so bits at positions 8 and above are never transmitted. -/
theorem claim_C10 (b : ℕ) :
    Shifter.shiftByte b =
      [SEvent.setData (b.testBit 0), SEvent.pulseClock,
       SEvent.setData (b.testBit 1), SEvent.pulseClock,
       SEvent.setData (b.testBit 2), SEvent.pulseClock,
       SEvent.setData (b.testBit 3), SEvent.pulseClock,
       SEvent.setData (b.testBit 4), SEvent.pulseClock,
       SEvent.setData (b.testBit 5), SEvent.pulseClock,
       SEvent.setData (b.testBit 6), SEvent.pulseClock,
       SEvent.setData (b.testBit 7), SEvent.pulseClock,
       SEvent.pulseLatch] ∧
    Shifter.shiftByte b = Shifter.shiftByte (b % 256) ∧
    (Shifter.shiftByte b).count SEvent.pulseClock = 8 ∧
    (Shifter.shiftByte b).count SEvent.pulseLatch = 1 ∧
    dataBits (Shifter.shiftByte b) = (List.range 8).map b.testBit := by
  have hexp : ∀ a : ℕ, Shifter.shiftByte a =
      [SEvent.setData (a.testBit 0), SEvent.pulseClock,
       SEvent.setData (a.testBit 1), SEvent.pulseClock,
       SEvent.setData (a.testBit 2), SEvent.pulseClock,
       SEvent.setData (a.testBit 3), SEvent.pulseClock,
       SEvent.setData (a.testBit 4), SEvent.pulseClock,
       SEvent.setData (a.testBit 5), SEvent.pulseClock,
       SEvent.setData (a.testBit 6), SEvent.pulseClock,
       SEvent.setData (a.testBit 7), SEvent.pulseClock,
       SEvent.pulseLatch] := by
    intro a
    have hr : List.range 8 = [0, 1, 2, 3, 4, 5, 6, 7] := rfl
    simp [Shifter.shiftByte, hr, and_one_shl_bne_zero]
  have hmod : ∀ i : ℕ, i < 8 → (b % 256).testBit i = b.testBit i := by
    intro i hi
    have h256 : (256 : ℕ) = 2 ^ 8 := by norm_num
    rw [h256, Nat.testBit_mod_two_pow]
    simp [hi]
  refine ⟨hexp b, ?_, ?_, ?_, ?_⟩
  · rw [hexp b, hexp (b % 256), hmod 0 (by norm_num), hmod 1 (by norm_num),
      hmod 2 (by norm_num), hmod 3 (by norm_num), hmod 4 (by norm_num),
      hmod 5 (by norm_num), hmod 6 (by norm_num), hmod 7 (by norm_num)]
  · rw [hexp b]
    rfl
  · rw [hexp b]
    rfl
  · rw [hexp b]
    rfl

lemma dataBits_cons_setData (v : Bool) (tr : List SEvent) :
    dataBits (SEvent.setData v :: tr) = v :: dataBits tr := rfl

lemma dataBits_cons_pulseClock (tr : List SEvent) :
    dataBits (SEvent.pulseClock :: tr) = dataBits tr := rfl

lemma dataBits_flatMap (g : ℕ → Bool) (l : List ℕ) :
    dataBits ((l.flatMap fun i => [SEvent.setData (g i), SEvent.pulseClock])
      ++ [SEvent.pulseLatch]) = l.map g := by
  induction l with
  | nil => rfl
  | cons a t ih =>
    have h2 : ((a :: t).flatMap fun i =>
          [SEvent.setData (g i), SEvent.pulseClock]) ++ [SEvent.pulseLatch]
        = SEvent.setData (g a) :: SEvent.pulseClock ::
          ((t.flatMap fun i => [SEvent.setData (g i), SEvent.pulseClock])
            ++ [SEvent.pulseLatch]) := by
      simp
    rw [h2, dataBits_cons_setData, dataBits_cons_pulseClock, ih, List.map_cons]

lemma dataBits_shiftWord (w bits : ℕ) :
    dataBits (Shifter.shiftWord w bits) = (List.range bits).map w.testBit :=
  dataBits_flatMap w.testBit (List.range bits)

lemma shiftWord_dataBit (w bits k : ℕ) (hk : k < bits) :
    (dataBits (Shifter.shiftWord w bits))[k]? = some (w.testBit k) := by
  rw [dataBits_shiftWord]
  simp [List.getElem?_map, List.getElem?_range hk]

/-- Claim C9: the multiprocessing2 variant's step transmits the full updated
word with bit width `total_bits = max(8, 4 * num_steppers)`, so every
registered axis's nibble bit is on the wire: bit `4*id + j` of the updated
word appears among the transmitted data bits. -/
theorem claim_C9 (n : ℕ) (dir : ℤ) (s : Stepper.State) (id j : ℕ)
    (hid : id < n) (hj : j < 4) :
    total_bits n = max 8 (4 * n) ∧
    (StepperW.step n dir s).2 =
      Shifter.shiftWord (StepperW.step n dir s).1.shifter_outputs
        (total_bits n) ∧
    4 * id + j < total_bits n ∧
    (dataBits (StepperW.step n dir s).2)[4 * id + j]? =
      some ((StepperW.step n dir s).1.shifter_outputs.testBit (4 * id + j)) := by
  have h1 : total_bits n = max 8 (4 * n) := by
    rw [total_bits, Nat.mul_comm]
  have hlt : 4 * id + j < total_bits n := by
    have h4 : 4 * id + j < n * 4 := by omega
    exact lt_of_lt_of_le h4 (le_max_right _ _)
  exact ⟨h1, rfl, hlt, shiftWord_dataBit _ _ _ hlt⟩

/-- Witness for `claim_C9`: two axes, axis 1, nibble bit 3. -/
theorem claim_C9_witness :
    1 < 2 ∧ 3 < 4 ∧
    (total_bits 2 = max 8 (4 * 2) ∧
     (StepperW.step 2 1 (Stepper.init 4)).2 =
       Shifter.shiftWord (StepperW.step 2 1 (Stepper.init 4)).1.shifter_outputs
         (total_bits 2) ∧
     4 * 1 + 3 < total_bits 2 ∧
     (dataBits (StepperW.step 2 1 (Stepper.init 4)).2)[4 * 1 + 3]? =
       some ((StepperW.step 2 1 (Stepper.init 4)).1.shifter_outputs.testBit
         (4 * 1 + 3))) :=
  ⟨by norm_num, by norm_num,
   claim_C9 2 1 (Stepper.init 4) 1 3 (by norm_num) (by norm_num)⟩

lemma seqAt_lt_sixteen (i : ℤ) : Stepper.seqAt i < 16 := by
  unfold Stepper.seqAt
  rcases lt_or_ge i.toNat 8 with h | h
  · interval_cases h : i.toNat <;> norm_num [Stepper.seq]
  · rw [List.getD_eq_default]
    · norm_num
    · simpa [Stepper.seq] using h

/-- Claim C3: one step advances `step_index` to `(step_index + dir) mod 8`,
rewrites the shared word to `(word AND NOT (15 << b)) OR (seq[new] << b)` —
placing the table nibble in the axis's own 4-bit slice — transmits exactly
that word, and updates the angle to
`(angle + dir / steps_per_degree) mod 360`. -/
theorem claim_C3 (dir : ℤ) (s : Stepper.State) :
    (Stepper.step dir s).1.step_state = (s.step_state + dir) % 8 ∧
    (Stepper.step dir s).1.shifter_outputs =
      Nat.ldiff s.shifter_outputs (0b1111 <<< s.shifter_bit_start) |||
        (Stepper.seqAt ((s.step_state + dir) % 8) <<< s.shifter_bit_start) ∧
    (Stepper.step dir s).2 = (Stepper.step dir s).1.shifter_outputs ∧
    (Stepper.step dir s).1.angle =
      qmod (s.angle + (dir : ℚ) / Stepper.steps_per_degree) 360 ∧
    (∀ j, j < 4 →
      (Stepper.step dir s).1.shifter_outputs.testBit (s.shifter_bit_start + j)
        = (Stepper.seqAt ((s.step_state + dir) % 8)).testBit j) := by
  refine ⟨rfl, rfl, rfl, rfl, ?_⟩
  intro j hj
  show (Nat.ldiff s.shifter_outputs (0b1111 <<< s.shifter_bit_start) |||
      (Stepper.seqAt ((s.step_state + dir) % 8) <<< s.shifter_bit_start)).testBit
        (s.shifter_bit_start + j) = _
  rw [Nat.testBit_lor, Nat.testBit_ldiff, Nat.testBit_shiftLeft,
    Nat.testBit_shiftLeft]
  have hge : s.shifter_bit_start + j ≥ s.shifter_bit_start := Nat.le_add_right _ _
  have hsub : s.shifter_bit_start + j - s.shifter_bit_start = j := by omega
  have h15 : Nat.testBit 0b1111 j = true := by
    interval_cases j <;> decide
  simp [hge, hsub, h15]

/-- Witness for `claim_C3` at `dir = 1` from a fresh axis, nibble bit 2. -/
theorem claim_C3_witness :
    2 < 4 ∧
    (Stepper.step 1 (Stepper.init 0)).1.shifter_outputs.testBit
        ((Stepper.init 0).shifter_bit_start + 2)
      = (Stepper.seqAt (((Stepper.init 0).step_state + 1) % 8)).testBit 2 :=
  ⟨by norm_num, (claim_C3 1 (Stepper.init 0)).2.2.2.2 2 (by norm_num)⟩

lemma step_testBit_outside (dir : ℤ) (s : Stepper.State) (i : ℕ)
    (h : i < s.shifter_bit_start ∨ s.shifter_bit_start + 4 ≤ i) :
    (Stepper.step dir s).1.shifter_outputs.testBit i
      = s.shifter_outputs.testBit i := by
  show (Nat.ldiff s.shifter_outputs (0b1111 <<< s.shifter_bit_start) |||
      (Stepper.seqAt ((s.step_state + dir) % 8) <<< s.shifter_bit_start)).testBit i
    = s.shifter_outputs.testBit i
  rw [Nat.testBit_lor, Nat.testBit_ldiff, Nat.testBit_shiftLeft,
    Nat.testBit_shiftLeft]
  rcases h with h | h
  · have hlt : ¬ (i ≥ s.shifter_bit_start) := by omega
    simp [hlt]
  · have hge : i ≥ s.shifter_bit_start := by omega
    have h4 : 4 ≤ i - s.shifter_bit_start := by omega
    have h16 : (16 : ℕ) ≤ 2 ^ (i - s.shifter_bit_start) := by
      calc (16 : ℕ) = 2 ^ 4 := by norm_num
        _ ≤ 2 ^ (i - s.shifter_bit_start) :=
            Nat.pow_le_pow_right (by norm_num) h4
    have hmask : Nat.testBit 0b1111 (i - s.shifter_bit_start) = false :=
      Nat.testBit_eq_false_of_lt (lt_of_lt_of_le (by norm_num) h16)
    have hnib : (Stepper.seqAt ((s.step_state + dir) % 8)).testBit
        (i - s.shifter_bit_start) = false :=
      Nat.testBit_eq_false_of_lt (lt_of_lt_of_le (seqAt_lt_sixteen _) h16)
    simp [hge, hmask, hnib]

lemma step_bit_start_eq (dir : ℤ) (s : Stepper.State) :
    (Stepper.step dir s).1.shifter_bit_start = s.shifter_bit_start := rfl

/-- Claim C4: over any sequence of one axis's step operations, the bits of
the shared word outside the axis's slice `[b, b+4)` keep their values. -/
theorem claim_C4 (dirs : List ℤ) (s : Stepper.State) (i : ℕ)
    (h : i < s.shifter_bit_start ∨ s.shifter_bit_start + 4 ≤ i) :
    (Stepper.runSteps dirs s).shifter_outputs.testBit i
      = s.shifter_outputs.testBit i := by
  induction dirs generalizing s with
  | nil => rfl
  | cons d t ih =>
    have hrun : Stepper.runSteps (d :: t) s
        = Stepper.runSteps t (Stepper.step d s).1 := rfl
    rw [hrun, ih (Stepper.step d s).1 (by rw [step_bit_start_eq]; exact h),
      step_testBit_outside d s i h]

/-- Witness for `claim_C4`: two steps of the axis at bit offset 4 leave
bit 0 of the word untouched. -/
theorem claim_C4_witness :
    (0 < 4 ∨ 4 + 4 ≤ 0) ∧
    (Stepper.runSteps [1, -1]
        { shifter_outputs := 255, step_state := 0, angle := 0,
          shifter_bit_start := 4 }).shifter_outputs.testBit 0
      = (255 : ℕ).testBit 0 :=
  ⟨Or.inl (by norm_num),
   claim_C4 [1, -1]
     { shifter_outputs := 255, step_state := 0, angle := 0,
       shifter_bit_start := 4 } 0 (Or.inl (by norm_num))⟩

lemma step_inv (dir : ℤ) (s : Stepper.State) :
    0 ≤ (Stepper.step dir s).1.angle ∧ (Stepper.step dir s).1.angle < 360 ∧
    0 ≤ (Stepper.step dir s).1.step_state ∧
    (Stepper.step dir s).1.step_state < 8 := by
  refine ⟨?_, ?_, ?_, ?_⟩
  · exact qmod_nonneg _ _ (by norm_num)
  · exact qmod_lt _ _ (by norm_num)
  · exact Int.emod_nonneg _ (by norm_num)
  · exact Int.emod_lt_of_pos _ (by norm_num)

lemma foldl_step_inv (l : List ℕ) (dir : ℤ) (s : Stepper.State)
    (h : 0 ≤ s.angle ∧ s.angle < 360 ∧ 0 ≤ s.step_state ∧ s.step_state < 8) :
    0 ≤ (l.foldl (fun st _ => (Stepper.step dir st).1) s).angle ∧
    (l.foldl (fun st _ => (Stepper.step dir st).1) s).angle < 360 ∧
    0 ≤ (l.foldl (fun st _ => (Stepper.step dir st).1) s).step_state ∧
    (l.foldl (fun st _ => (Stepper.step dir st).1) s).step_state < 8 := by
  induction l generalizing s with
  | nil => exact h
  | cons a t ih => exact ih (Stepper.step dir s).1 (step_inv dir s)

lemma rotate_inv (delta : ℚ) (s : Stepper.State)
    (h : 0 ≤ s.angle ∧ s.angle < 360 ∧ 0 ≤ s.step_state ∧ s.step_state < 8) :
    0 ≤ (Stepper.rotate delta s).angle ∧
    (Stepper.rotate delta s).angle < 360 ∧
    0 ≤ (Stepper.rotate delta s).step_state ∧
    (Stepper.rotate delta s).step_state < 8 :=
  foldl_step_inv (List.range (Stepper.numSteps delta)) (Stepper.sgn delta) s h

lemma applyOp_inv (op : Stepper.Op) (s : Stepper.State)
    (h : 0 ≤ s.angle ∧ s.angle < 360 ∧ 0 ≤ s.step_state ∧ s.step_state < 8) :
    0 ≤ (Stepper.applyOp s op).angle ∧
    (Stepper.applyOp s op).angle < 360 ∧
    0 ≤ (Stepper.applyOp s op).step_state ∧
    (Stepper.applyOp s op).step_state < 8 := by
  cases op with
  | step d => exact step_inv d s
  | rotate d => exact rotate_inv d s h
  | goAngle t => exact rotate_inv _ s h
  | zero =>
      refine ⟨le_refl 0, ?_, le_refl 0, ?_⟩ <;>
        norm_num [Stepper.applyOp, Stepper.zero]

lemma run_inv (ops : List Stepper.Op) (s : Stepper.State)
    (h : 0 ≤ s.angle ∧ s.angle < 360 ∧ 0 ≤ s.step_state ∧ s.step_state < 8) :
    0 ≤ (Stepper.run ops s).angle ∧ (Stepper.run ops s).angle < 360 ∧
    0 ≤ (Stepper.run ops s).step_state ∧
    (Stepper.run ops s).step_state < 8 := by
  induction ops generalizing s with
  | nil => exact h
  | cons op t ih => exact ih (Stepper.applyOp s op) (applyOp_inv op s h)

/-- Claim C5: from the initial state, every sequence of public operations
(step, rotate, goAngle, zero) keeps `angle` in `[0, 360)` and `step_index`
in `[0, 8)`. -/
theorem claim_C5 (ops : List Stepper.Op) (bit_start : ℕ) :
    0 ≤ (Stepper.run ops (Stepper.init bit_start)).angle ∧
    (Stepper.run ops (Stepper.init bit_start)).angle < 360 ∧
    0 ≤ (Stepper.run ops (Stepper.init bit_start)).step_state ∧
    (Stepper.run ops (Stepper.init bit_start)).step_state < 8 :=
  run_inv ops (Stepper.init bit_start)
    ⟨le_refl 0, by norm_num [Stepper.init], le_refl 0, by norm_num [Stepper.init]⟩

lemma foldl_range_const {α : Type} (f : α → α) (n : ℕ) (s : α) :
    (List.range n).foldl (fun st _ => f st) s = f^[n] s := by
  induction n generalizing s with
  | zero => rfl
  | succ m ih =>
    rw [List.range_succ, List.foldl_append, ih, List.foldl_cons,
      List.foldl_nil, Function.iterate_succ_apply']

/-- Claim C6 as frozen is refuted at `deltaDegrees = 2/25`: the code
truncates (`int(...)`), so `rotate` performs
`int(steps_per_degree * |2/25|) = 0` steps and leaves the state unchanged,
while `round(steps_per_degree * |2/25|) = 1`. -/
theorem claim_C6_counterexample :
    Stepper.numSteps (2/25) = 0 ∧
    (round (Stepper.steps_per_degree * |(2/25 : ℚ)|) : ℤ) = 1 ∧
    Stepper.numSteps (2/25) ≠
      (round (Stepper.steps_per_degree * |(2/25 : ℚ)|) : ℤ).toNat ∧
    Stepper.rotate (2/25) (Stepper.init 0) = Stepper.init 0 := by
  have habs : |(2/25 : ℚ)| = 2/25 := by
    rw [abs_of_nonneg]
    norm_num
  have h0 : Stepper.numSteps (2/25) = 0 := by
    rw [Stepper.numSteps, habs, pyInt, if_pos (by norm_num [Stepper.steps_per_degree])]
    have hf : ⌊Stepper.steps_per_degree * (2/25 : ℚ)⌋ = 0 := by
      rw [Int.floor_eq_iff] <;> norm_num [Stepper.steps_per_degree]
    rw [hf]
    rfl
  have h1 : (round (Stepper.steps_per_degree * |(2/25 : ℚ)|) : ℤ) = 1 := by
    rw [habs, round_eq, Int.floor_eq_iff] <;>
      norm_num [Stepper.steps_per_degree]
  refine ⟨h0, h1, ?_, ?_⟩
  · rw [h0, h1]
    norm_num
  · rw [Stepper.rotate, h0]
    rfl

/-- Claim C6, amended: `__rotate delta` performs exactly
`int(steps_per_degree * |delta|)` (truncation toward zero, not rounding)
iterated calls of `__step (sgn delta)`; `sgn 0 = 0` and a zero delta
performs zero steps, leaving the state unchanged. -/
theorem claim_C6_amended (delta : ℚ) (s : Stepper.State) :
    Stepper.rotate delta s =
      (fun st => (Stepper.step (Stepper.sgn delta) st).1)^[Stepper.numSteps delta] s ∧
    Stepper.numSteps delta = (pyInt (Stepper.steps_per_degree * |delta|)).toNat ∧
    Stepper.sgn 0 = 0 ∧
    Stepper.rotate 0 s = s := by
  have hn : Stepper.numSteps 0 = 0 := by
    rw [Stepper.numSteps, abs_zero, mul_zero, pyInt, if_pos (le_refl (0 : ℚ))]
    norm_num
  refine ⟨?_, rfl, ?_, ?_⟩
  · rw [Stepper.rotate, foldl_range_const]
  · rw [Stepper.sgn, if_pos rfl]
  · rw [Stepper.rotate, hn]
    rfl

/-- Claim C7 as frozen is refuted by the
`stepper_class_shiftregister_multiprocessing.py` variant, whose `zero()`
resets only the angle: from `step_state = 3` it leaves `step_state = 3`. -/
theorem claim_C7_counterexample :
    (StepperV2.zero
      { shifter_outputs := 0, step_state := 3, angle := 45,
        shifter_bit_start := 0 }).step_state = 3 ∧
    ((3 : ℤ) ≠ 0) := by
  exact ⟨rfl, by norm_num⟩

/-- Claim C7, amended: in `lab8_stepper_multiprocessing.py` `zero()` sets
`angle = 0` and `step_index = 0` and is idempotent; in
`stepper_class_shiftregister_multiprocessing.py` `zero()` sets only
`angle = 0`, leaves `step_index` unchanged, and is idempotent. -/
theorem claim_C7_amended (s : Stepper.State) :
    (Stepper.zero s).angle = 0 ∧ (Stepper.zero s).step_state = 0 ∧
    Stepper.zero (Stepper.zero s) = Stepper.zero s ∧
    (StepperV2.zero s).angle = 0 ∧
    (StepperV2.zero s).step_state = s.step_state ∧
    StepperV2.zero (StepperV2.zero s) = StepperV2.zero s :=
  ⟨rfl, rfl, rfl, rfl, rfl, rfl⟩

/-- Claim C8 as frozen is refuted: `goAngle(nan)` is not rejected — the
command is enqueued and the queue grows, with no error raised at the call
site. -/
theorem claim_C8_counterexample :
    StepperQueue.goAngle PyFloat.nan [] = [(CmdKind.abs, PyFloat.nan)] ∧
    StepperQueue.goAngle PyFloat.nan [] ≠ [] ∧
    StepperQueue.rotate PyFloat.inf [] = [(CmdKind.rel, PyFloat.inf)] := by
  refine ⟨rfl, ?_, rfl⟩
  simp [StepperQueue.goAngle]

/-- Claim C8, amended: the public `rotate`/`goAngle` perform no validation
at the call site — for every argument, finite or not, they unconditionally
append the command to the axis's queue (the queue always grows by one). -/
theorem claim_C8_amended (v : PyFloat) (q : List (CmdKind × PyFloat)) :
    StepperQueue.goAngle v q = q ++ [(CmdKind.abs, v)] ∧
    StepperQueue.rotate v q = q ++ [(CmdKind.rel, v)] ∧
    (StepperQueue.goAngle v q).length = q.length + 1 ∧
    (StepperQueue.rotate v q).length = q.length + 1 := by
  refine ⟨rfl, rfl, ?_, ?_⟩ <;>
    simp [StepperQueue.goAngle, StepperQueue.rotate]

/-- Claim C1 fails on `src/lab8.py`: its read-modify-write of the shared
word runs outside the lock, so an interleaving of two axes' step routines
is observable.  With axis A (offset 0, nibble 3) and axis B (offset 4,
nibble 9), the schedule in which A reads the word, B then completes its
entire step (committing and transmitting `9 << 4 = 144`), and A then
resumes, ends with both programs finished but the word equal to `3`:
axis B's committed nibble has been lost (bit 4 is clear), whereas any
serial execution ends with word `147 = 3 ||| 144`. -/
theorem claim_C1_lost_update :
    (runSched
      [false, true, true, true, true, true, true, true,
       false, false, false, false, false, false]
      (twoAxisInit lab8StepProg 3 9)).progA = [] ∧
    (runSched
      [false, true, true, true, true, true, true, true,
       false, false, false, false, false, false]
      (twoAxisInit lab8StepProg 3 9)).progB = [] ∧
    (runSched
      [false, true, true, true, true, true, true, true,
       false, false, false, false, false, false]
      (twoAxisInit lab8StepProg 3 9)).out = [144, 3] ∧
    (runSched
      [false, true, true, true, true, true, true, true,
       false, false, false, false, false, false]
      (twoAxisInit lab8StepProg 3 9)).word = 3 ∧
    (runSched
      [false, false, false, false, false, false, false,
       true, true, true, true, true, true, true]
      (twoAxisInit lab8StepProg 3 9)).word = 147 ∧
    (runSched
      [true, true, true, true, true, true, true,
       false, false, false, false, false, false, false]
      (twoAxisInit lab8StepProg 3 9)).word = 147 ∧
    (3 : ℕ).testBit 4 = false ∧ (147 : ℕ).testBit 4 = true ∧
    (3 : ℕ) ≠ 147 := by
  refine ⟨?_, ?_, ?_, ?_, ?_, ?_, by decide, by decide, by decide⟩ <;>
    simp [runSched, twoAxisInit, lab8StepProg, stepAxis, getProg, setProg,
      getReg, setReg, Nat.ldiff, Nat.bitwise]

lemma mp_fA_zero : Nat.ldiff 0 15 ||| 3 = 3 := by
  simp [Nat.ldiff, Nat.bitwise]

lemma mp_fA_144 : Nat.ldiff 144 15 ||| 3 = 147 := by
  simp [Nat.ldiff, Nat.bitwise]

lemma mp_fB_zero : Nat.ldiff 0 240 ||| 144 = 144 := by
  simp [Nat.ldiff, Nat.bitwise]

lemma mp_fB_3 : Nat.ldiff 3 240 ||| 144 = 147 := by
  simp [Nat.ldiff, Nat.bitwise]

set_option maxHeartbeats 3200000 in
lemma mpInv_step (i : Bool) (c : Config) (h : MpInv c) : MpInv (stepAxis i c) := by
  obtain ⟨w, ow, ra, rb, pa, pb, outw⟩ := c
  obtain ⟨hA, hB, hoA, hoB, hrA, hrB, hw00, hw10, hw01, hw11⟩ := h
  cases i <;>
    rcases hA with hpa | (hpa | hpa | hpa | hpa) | hpa <;>
    rcases hB with hpb | (hpb | hpb | hpb | hpb) | hpb <;>
    cases ow <;>
    simp_all [stepAxis, getProg, setProg, getReg, setReg, MpInv, mpProgA,
      mpProgB, mpStepProg, inCSA, inCSB, doneWriteA, doneWriteB,
      mp_fA_zero, mp_fA_144, mp_fB_zero, mp_fB_3]

lemma mpInv_runSched (sched : List Bool) (c : Config) (h : MpInv c) :
    MpInv (runSched sched c) := by
  induction sched generalizing c with
  | nil => exact h
  | cons i t ih => exact ih (stepAxis i c) (mpInv_step i c h)

lemma mpInv_init : MpInv (twoAxisInit mpStepProg 3 9) := by
  simp [MpInv, twoAxisInit, mpProgA, mpProgB, mpStepProg, inCSA, inCSB,
    doneWriteA, doneWriteB]

/-- The locked step of `src/lab8_stepper_multiprocessing.py` is atomic with
respect to interleaving: under EVERY schedule of the two axes' micro-
operations, once both step routines have completed, the shared word equals
the serial result `147 = (9 << 4) ||| 3` — no interleaving is observable in
the final word. -/
theorem mpStepProg_serializes (sched : List Bool)
    (hA : (runSched sched (twoAxisInit mpStepProg 3 9)).progA = [])
    (hB : (runSched sched (twoAxisInit mpStepProg 3 9)).progB = []) :
    (runSched sched (twoAxisInit mpStepProg 3 9)).word = 147 := by
  have h := mpInv_runSched sched (twoAxisInit mpStepProg 3 9) mpInv_init
  obtain ⟨-, -, -, -, -, -, -, -, -, hw11⟩ := h
  exact hw11 (Or.inr (Or.inr hA)) (Or.inr (Or.inr hB))
